import Mathlib

/-!
Shallow embedding of the CSGLRP front-end (a legal-case-record management UI)
and proofs about its behaviour.  Each definition mirrors one function of the
TypeScript source; browser facilities (local storage, `window.location`,
toast notifications, backend HTTP calls) are made explicit as values:
storage is a record, an HTTP outcome is a parameter, and side effects
(requests issued, toasts shown, redirects performed) are returned as data.
-/

namespace CSGLRP

/-! ## Data model (src/types.ts) -/

/-- Interface `User` from types.ts. -/
structure User where
  id : String
  name : String
  phone : String
  isAdmin : Bool
deriving DecidableEq, Repr

/-- Interface `Attachment` from types.ts. -/
structure Attachment where
  fileName : String
  fileType : String
  fileSize : Nat
  uploadDate : String
  url : String
  ossKey : String
deriving DecidableEq, Repr

/-- Interface `TagStat` from types.ts. -/
structure TagStat where
  tag : String
  count : Nat
deriving DecidableEq, Repr

/-! ## API client response interceptor (src/services/api.ts)

The interceptor's error handler reads `window.location.hash`, mutates
`localStorage`, may assign `window.location.href` and may show toasts.
We model local storage as the pair of its two entries, the location test
`window.location.hash.includes('/login')` as a boolean input, and the
effects as explicit output data. -/

/-- The two client-side persisted entries: `localStorage` keys
`token` and `user` (the latter a JSON-serialized user). -/
structure LocalStorage where
  token : Option String
  user : Option String
deriving DecidableEq, Repr

/-- A toast notification, as shown via `react-hot-toast`. -/
inductive Toast where
  | error (msg : String)
  | success (msg : String)
deriving DecidableEq, Repr

/-- An axios error as seen by the response interceptor:
`response` is present when the server answered with an error status
(status code and the optional `data.message`), otherwise `request`
tells whether the request was sent but got no response. -/
structure HttpError where
  response : Option (Nat × Option String)
  request : Bool
deriving DecidableEq, Repr

/-- Result of running the interceptor's error branch: the storage after it,
the number of assignments to `window.location.href`, and the toasts shown. -/
structure InterceptResult where
  storage : LocalStorage
  redirects : Nat
  toasts : List Toast
deriving DecidableEq, Repr

/-- The response interceptor's rejection handler
(`api.interceptors.response.use`, src/services/api.ts lines 28-54).
`onLoginRoute` stands for `window.location.hash.includes('/login')`. -/
def onResponseError (st : LocalStorage) (onLoginRoute : Bool) (e : HttpError) :
    InterceptResult :=
  match e.response with
  | some (status, msg) =>
    if status = 401 then
      let cleared : LocalStorage := { token := none, user := none }
      if onLoginRoute then
        { storage := cleared, redirects := 0, toasts := [] }
      else
        { storage := cleared, redirects := 1,
          toasts := [.error "登录已过期，请重新登录"] }
    else if status = 403 then
      { storage := st, redirects := 0, toasts := [.error "您没有权限执行此操作"] }
    else if 500 ≤ status then
      { storage := st, redirects := 0, toasts := [.error "服务器内部错误，请稍后重试"] }
    else
      { storage := st, redirects := 0,
        toasts := [.error (msg.getD "请求处理失败")] }
  | none =>
    if e.request then
      { storage := st, redirects := 0, toasts := [.error "无法连接到服务器，请检查网络"] }
    else
      { storage := st, redirects := 0, toasts := [.error "请求配置错误"] }

/-! ## Case editor attachments (src/components/CaseModal.tsx) -/

/-- Result of one attachment-list handler of the case editor: the backend
file-service keys it asked to delete (in order), the new in-memory
attachment list, and the drag state. -/
structure DragStepResult (α : Type) where
  attachments : List α
  draggedItemIndex : Option Nat
  requests : List String
deriving DecidableEq, Repr

/-- Handler `handleDragOver` (CaseModal.tsx lines 167-180).  The dragged element is
removed from its old index and re-inserted at the hovered index via two
array splices; nothing happens when no drag is active or the pointer is over
the dragged item itself.  The handler calls no backend service, so
`requests` is always empty.  The `none` branch of the lookup is unreachable
in the component (drag indices come from rendering the same list). -/
def handleDragOver (dragged : Option Nat) (index : Nat) (attachments : List α) :
    DragStepResult α :=
  match dragged with
  | none => { attachments, draggedItemIndex := dragged, requests := [] }
  | some i =>
    if i = index then { attachments, draggedItemIndex := dragged, requests := [] }
    else
      match attachments[i]? with
      | some draggedItem =>
        { attachments := (attachments.eraseIdx i).insertIdx index draggedItem,
          draggedItemIndex := some index, requests := [] }
      | none => { attachments, draggedItemIndex := some index, requests := [] }

/-- An upload candidate as seen by the dropzone: its display name and
its byte size (`File.name`, `File.size`). -/
structure UploadFile where
  name : String
  size : Nat
deriving DecidableEq, Repr

/-- The client-side upload size limit: 50MB (CaseModal.tsx line 97). -/
def maxUploadSize : Nat := 50 * 1024 * 1024

/-- Result of the dropzone handler: the batches sent to
`fileService.uploadBatch` (at most one) and the form's attachment list. -/
structure OnDropResult where
  batches : List (List UploadFile)
  attachments : List Attachment
deriving DecidableEq, Repr

/-- Handler `onDrop` (CaseModal.tsx lines 94-124).  Files over 50MB are filtered out
(each with an error toast); when nothing passes, the handler returns before
any request; otherwise one batch upload is issued and, on a `code = 200`
response, the returned records are appended to the current list.
`response = none` models a thrown/failed request, `some (code, data)` a
resolved envelope. -/
def onDrop (acceptedFiles : List UploadFile) (current : List Attachment)
    (response : Option (Nat × List Attachment)) : OnDropResult :=
  let validFiles := acceptedFiles.filter (fun file => file.size ≤ maxUploadSize)
  if validFiles = [] then
    { batches := [], attachments := current }
  else
    match response with
    | some (200, newAttachments) =>
      { batches := [validFiles], attachments := current ++ newAttachments }
    | _ =>
      { batches := [validFiles], attachments := current }

/-- A backend request issued while deleting an attachment. -/
inductive DeleteRequest where
  | deleteFile (ossKey : String)
  | updateCase (id : String)
deriving DecidableEq, Repr

/-- Handler `handleRemoveAttachment` (CaseModal.tsx lines 141-157).  A missing item
or declined confirmation returns without any request; otherwise the file is
deleted by its storage key first and the item is spliced out of the local
list only when that call succeeded (the `catch` leaves the list as it was). -/
def handleRemoveAttachment (attachments : List Attachment) (index : Nat)
    (confirmed : Bool) (deleteSucceeds : Bool) :
    List DeleteRequest × List Attachment :=
  match attachments[index]? with
  | none => ([], attachments)
  | some fileToRemove =>
    if confirmed then
      if deleteSucceeds then
        ([.deleteFile fileToRemove.ossKey], attachments.eraseIdx index)
      else
        ([.deleteFile fileToRemove.ossKey], attachments)
    else ([], attachments)

/-- Handler `handleSingleDelete` (CaseDetail.tsx lines 138-151).  Same pattern in the
detail view: confirmation, then the file delete by storage key; only on its
success is the local list filtered and the case record re-saved without the
attachment. -/
def handleSingleDelete (caseId : String) (atts : List Attachment)
    (attachment : Attachment) (confirmed : Bool) (deleteSucceeds : Bool) :
    List DeleteRequest × List Attachment :=
  if confirmed then
    if deleteSucceeds then
      ([.deleteFile attachment.ossKey, .updateCase caseId],
        atts.filter (fun a => a.ossKey ≠ attachment.ossKey))
    else
      ([.deleteFile attachment.ossKey], atts)
  else ([], atts)

/-! ## Tag-string processing on submit
(src/pages/CaseList.tsx `handleCreateOrUpdate`, src/pages/CaseDetail.tsx
`handleUpdate`)

JavaScript strings are embedded as lists of characters, so that the string
operations used on submit (`split`, `trim`, truthiness) are structural and
computable. -/

/-- A tag delimiter: the ASCII comma or the full-width comma, the two
characters of the regex `[,，]`. -/
def isTagDelim (c : Char) : Bool := c = ',' ∨ c = '，'

/-- JavaScript `String.prototype.split` against a single-character class:
every delimiter occurrence ends the current piece, adjacent delimiters and
delimiters at either end yield empty pieces, and the empty string yields
`[""]`. -/
def jsSplit (p : Char → Bool) : List Char → List (List Char)
  | [] => [[]]
  | c :: cs =>
    if p c then [] :: jsSplit p cs
    else
      match jsSplit p cs with
      | [] => [[c]]
      | piece :: rest => (c :: piece) :: rest

/-- JavaScript `String.prototype.trim`: strip leading and trailing
whitespace. -/
def jsTrim (s : List Char) : List Char :=
  ((s.dropWhile Char.isWhitespace).reverse.dropWhile Char.isWhitespace).reverse

/-- Expression `data.tags.split(/[,，]/).map(t => t.trim()).filter(Boolean)` as built by
`handleCreateOrUpdate` (CaseList.tsx line 125); `filter(Boolean)` keeps
exactly the non-empty strings. -/
def handleCreateOrUpdateTags (tags : List Char) : List (List Char) :=
  ((jsSplit (fun c => c = ',' ∨ c = '，') tags).map jsTrim).filter
    (fun t => t ≠ [])

/-- The same expression as built by `handleUpdate` (CaseDetail.tsx line 70). -/
def handleUpdateTags (tags : List Char) : List (List Char) :=
  ((jsSplit (fun c => c = ',' ∨ c = '，') tags).map jsTrim).filter
    (fun t => t ≠ [])

/-- Written from the amended spec wording: the input is split at every comma
delimiter (ASCII or full-width), each piece is trimmed, and empty pieces are
dropped; duplicates are kept, in input order. -/
def specSubmittedTags (tags : List Char) : List (List Char) :=
  ((jsSplit isTagDelim tags).map jsTrim).filter (fun t => t.length ≠ 0)

/-! ## Case list filter/sort affordance and pagination
(src/pages/CaseList.tsx) -/

/-- Sort direction of the case list (`sortDir`). -/
inductive SortDir where
  | desc
  | asc
deriving DecidableEq, Repr

/-- The filter/sort-relevant state of the case list view. -/
structure ListFilterState where
  keyword : String
  selectedTag : String
  page : Nat
  sortDir : SortDir
deriving DecidableEq, Repr

/-- Handler `handleFilterOrSort` (CaseList.tsx lines 186-199).  With any active
filter (`keyword || selectedTag` truthy, i.e. either string non-empty) the
filters are reset and the page returns to 1; otherwise the sort direction
is toggled. -/
def handleFilterOrSort (s : ListFilterState) : ListFilterState :=
  if s.keyword ≠ "" ∨ s.selectedTag ≠ "" then
    { s with keyword := "", selectedTag := "", page := 1 }
  else
    { s with sortDir := if s.sortDir = .desc then .asc else .desc }

/-- Handler `handlePageChange` (CaseList.tsx lines 179-183): the new page is
accepted only when `1 ≤ newPage ≤ totalPages`, otherwise the state is
left alone. -/
def handlePageChange (totalPages : Nat) (page : Nat) (newPage : Nat) : Nat :=
  if 1 ≤ newPage ∧ newPage ≤ totalPages then newPage else page

/-- The page reached from the initial page 1 after a sequence of requested
page numbers, each fed through `handlePageChange`. -/
def pageAfter (totalPages : Nat) (requests : List Nat) : Nat :=
  requests.foldl (handlePageChange totalPages) 1

/-! ## Session initialization (src/context/AuthContext.tsx `initAuth`)

The cached `user` entry of local storage is kept here in parsed form; JSON
(de)serialization is abstracted away, a corrupt cached entry is `none`. -/

/-- Parsed session storage: the bearer token and the cached user. -/
structure SessionStorage where
  token : Option String
  user : Option User
deriving DecidableEq, Repr

/-- A write `initAuth` performs on local storage. -/
inductive StorageWrite where
  | setUser (u : User)
deriving DecidableEq, Repr

/-- Outcome of the `authService.getCurrentUser()` (whoami) call: a resolved
envelope with its `code` and user, or a rejection (network failure or an
error status turned into an exception). -/
inductive WhoamiOutcome where
  | ok (code : Nat) (u : User)
  | failed
deriving DecidableEq, Repr

/-- Result of `initAuth`: storage writes performed, in-memory user, and the
final `isLoading` flag. -/
structure InitAuthResult where
  writes : List StorageWrite
  user : Option User
  isLoading : Bool
deriving DecidableEq, Repr

/-- Function `initAuth` (AuthContext.tsx lines 20-56).  With no token it only ends
loading.  With a token, the cached user is restored optimistically, then
whoami either confirms (code 200: the user is refreshed in memory and
re-cached) or fails (any other code throws into the `catch`, which does
nothing); either way loading ends.  `initAuth` itself never removes the
stored token or user. -/
def initAuth (st : SessionStorage) (whoami : WhoamiOutcome) : InitAuthResult :=
  match st.token with
  | none => { writes := [], user := none, isLoading := false }
  | some _ =>
    match whoami with
    | .ok code u =>
      if code = 200 then { writes := [.setUser u], user := some u, isLoading := false }
      else { writes := [], user := st.user, isLoading := false }
    | .failed => { writes := [], user := st.user, isLoading := false }

/-! ## Dashboard / case-list top tag
(src/pages/Dashboard.tsx `fetchDashboardData`, CaseList.tsx tags effect) -/

/-- Expression `tags.reduce((prev, current) => (prev.count > current.count) ? prev :
current)` with the `暂无` placeholder for an empty list (Dashboard.tsx lines
35-37, CaseList.tsx lines 51-53).  JavaScript `reduce` without an initial
value starts from the first element and folds the rest. -/
def topTag (tags : List TagStat) : TagStat :=
  match tags with
  | [] => { tag := "暂无", count := 0 }
  | t :: rest =>
    rest.foldl (fun prev current =>
      if prev.count > current.count then prev else current) t

/-! ## Detail view attachment truncation (src/pages/CaseDetail.tsx) -/

/-- Value `hasAttachments` (CaseDetail.tsx line 161); a missing attachments field
is the empty list. -/
def hasAttachments (atts : List Attachment) : Bool := atts.length > 0

/-- Value `showCollapse` (CaseDetail.tsx line 162): the expand/collapse control
exists exactly when there are attachments and more than three of them. -/
def showCollapse (atts : List Attachment) : Bool :=
  hasAttachments atts && atts.length > 3

/-- Value `displayedAttachments` (CaseDetail.tsx lines 164-166): collapsed with
more than three attachments, only the first three; otherwise all. -/
def displayedAttachments (atts : List Attachment)
    (isAttachmentsExpanded : Bool) : List Attachment :=
  if showCollapse atts && !isAttachmentsExpanded then atts.take 3 else atts

/-! ## Helper lemmas -/

/-- A list is a permutation of its element at `i` consed onto the list with
index `i` erased. -/
theorem perm_get_cons_eraseIdx (l : List α) (i : Nat) (hi : i < l.length) :
    l.Perm (l.get ⟨i, hi⟩ :: l.eraseIdx i) := by
  rw [List.eraseIdx_eq_take_drop_succ]
  conv_lhs => rw [← List.take_append_drop i l, List.drop_eq_getElem_cons hi]
  exact List.perm_middle

/-! ## Claim theorems -/

/-- C1: on every HTTP 401 seen by the response interceptor the stored
session (token and user) is cleared, and the redirect to the login route
(with its toast) is performed exactly once, if and only if the current
location is not already the login route — so no redirect happens when
already there. -/
theorem interceptor_401_clears_and_redirects_once
    (st : LocalStorage) (onLoginRoute : Bool) (e : HttpError)
    (msg : Option String) (h : e.response = some (401, msg)) :
    (onResponseError st onLoginRoute e).storage.token = none ∧
    (onResponseError st onLoginRoute e).storage.user = none ∧
    (onResponseError st onLoginRoute e).redirects ≤ 1 ∧
    ((onResponseError st onLoginRoute e).redirects = 1 ↔ onLoginRoute = false) ∧
    ((onResponseError st onLoginRoute e).toasts ≠ [] ↔ onLoginRoute = false) := by
  cases onLoginRoute <;> simp [onResponseError, h]

theorem interceptor_401_clears_and_redirects_once_witness :
    (onResponseError ⟨some "tok", some "usr"⟩ false
        ⟨some (401, none), false⟩).storage.token = none ∧
    (onResponseError ⟨some "tok", some "usr"⟩ false
        ⟨some (401, none), false⟩).redirects = 1 ∧
    (onResponseError ⟨some "tok", some "usr"⟩ true
        ⟨some (401, none), false⟩).redirects = 0 := by
  have h1 := interceptor_401_clears_and_redirects_once
    ⟨some "tok", some "usr"⟩ false ⟨some (401, none), false⟩ none rfl
  have h2 := interceptor_401_clears_and_redirects_once
    ⟨some "tok", some "usr"⟩ true ⟨some (401, none), false⟩ none rfl
  refine ⟨h1.1, h1.2.2.2.1.mpr rfl, ?_⟩
  have hle := h2.2.2.1
  have hne : ¬ (onResponseError ⟨some "tok", some "usr"⟩ true
      ⟨some (401, none), false⟩).redirects = 1 := fun hx => by
    simpa using h2.2.2.2.1.mp hx
  omega

/-- C2: a drag-over step with an active dragged index `i` over a target
index `j` (both in range, `i ≠ j`) removes the element at `i` and reinserts
it at `j`: the result is a permutation of the input, the relative order of
the remaining elements is unchanged, and the dragged index becomes `j`; no
backend request is issued.  When no drag is active or the target is the
dragged item itself the list is untouched. -/
theorem handleDragOver_reorders (l : List α) (i j : Nat)
    (hi : i < l.length) (hj : j < l.length) (hne : i ≠ j) :
    (handleDragOver (some i) j l).attachments
      = (l.eraseIdx i).insertIdx j (l.get ⟨i, hi⟩) ∧
    ((handleDragOver (some i) j l).attachments).Perm l ∧
    ((handleDragOver (some i) j l).attachments).eraseIdx j = l.eraseIdx i ∧
    (handleDragOver (some i) j l).draggedItemIndex = some j ∧
    (handleDragOver (some i) j l).requests = [] ∧
    handleDragOver none j l
      = { attachments := l, draggedItemIndex := none, requests := [] } ∧
    handleDragOver (some j) j l
      = { attachments := l, draggedItemIndex := some j, requests := [] } := by
  have hstep : (handleDragOver (some i) j l).attachments
      = (l.eraseIdx i).insertIdx j (l.get ⟨i, hi⟩) := by
    simp [handleDragOver, hne, List.getElem?_eq_getElem hi]
  refine ⟨hstep, ?_, ?_, ?_, ?_, ?_, ?_⟩
  · rw [hstep]
    have hlen : j ≤ (l.eraseIdx i).length := by
      rw [List.length_eraseIdx]
      simp only [hi, if_pos]
      omega
    exact (List.perm_insertIdx _ _ hlen).trans
      (perm_get_cons_eraseIdx l i hi).symm
  · rw [hstep, List.eraseIdx_insertIdx]
  · simp [handleDragOver, hne, List.getElem?_eq_getElem hi]
  · simp [handleDragOver, hne, List.getElem?_eq_getElem hi]
  · simp [handleDragOver]
  · simp [handleDragOver]

theorem handleDragOver_reorders_witness :
    (handleDragOver (some 0) 2 ["a", "b", "c"]).attachments = ["b", "c", "a"] ∧
    ((handleDragOver (some 0) 2 ["a", "b", "c"]).attachments).Perm
      ["a", "b", "c"] ∧
    (handleDragOver (some 0) 2 ["a", "b", "c"]).requests = [] := by
  have h := handleDragOver_reorders ["a", "b", "c"] 0 2
    (by decide) (by decide) (by decide)
  exact ⟨by decide, h.2.1, h.2.2.2.2.1⟩

/-- C3 counterexample: the submitted tag value is not duplicate-free — the
input `"窃电,窃电"` (the same tag twice, comma-separated) is submitted as the
two-element list `["窃电", "窃电"]`, which is not `Nodup`, in both the
create/update path of the case list and the update path of the detail
view. -/
theorem submitted_tags_duplicates_counterexample :
    handleCreateOrUpdateTags "窃电,窃电".toList
      = ["窃电".toList, "窃电".toList] ∧
    ¬ (handleCreateOrUpdateTags "窃电,窃电".toList).Nodup ∧
    handleUpdateTags "窃电,窃电".toList = ["窃电".toList, "窃电".toList] := by
  decide

/-- C3 (amended): for every tags input string, the value submitted in the
case payload is the input split at every comma delimiter (ASCII or
full-width) with each piece trimmed and empty pieces dropped, in input
order; repeated tags are kept, so the result is a list rather than a set.
Both submit paths compute the same value, and every submitted tag is
non-empty. -/
theorem submitted_tags_split_trim_drop_empty (tags : List Char) :
    handleCreateOrUpdateTags tags = specSubmittedTags tags ∧
    handleUpdateTags tags = handleCreateOrUpdateTags tags ∧
    ∀ t ∈ handleCreateOrUpdateTags tags, t ≠ [] := by
  refine ⟨?_, rfl, ?_⟩
  · unfold handleCreateOrUpdateTags specSubmittedTags isTagDelim
    exact List.filter_congr (fun t _ => by cases t <;> simp)
  · intro t ht
    have := (List.mem_filter.mp ht).2
    simpa using this

/-- C4: exactly the dropped files of size at most 50MB are included in the
batch upload; an oversized file is never part of any issued batch; when no
file passes validation no upload request is issued and the form state is
untouched; and on a successful (`code = 200`) upload the returned records
are appended to the end of the local attachment list. -/
theorem onDrop_filters_and_appends (files : List UploadFile)
    (current : List Attachment) (response : Option (Nat × List Attachment)) :
    (∀ batch ∈ (onDrop files current response).batches,
      ∀ f, f ∈ batch ↔ f ∈ files ∧ f.size ≤ maxUploadSize) ∧
    (files.filter (fun f => f.size ≤ maxUploadSize) = [] →
      (onDrop files current response).batches = [] ∧
      (onDrop files current response).attachments = current) ∧
    (files.filter (fun f => f.size ≤ maxUploadSize) ≠ [] →
      (onDrop files current response).batches
        = [files.filter (fun f => f.size ≤ maxUploadSize)]) ∧
    (∀ newAttachments, files.filter (fun f => f.size ≤ maxUploadSize) ≠ [] →
      response = some (200, newAttachments) →
      (onDrop files current response).attachments = current ++ newAttachments) ∧
    (∀ f ∈ files, maxUploadSize < f.size →
      ∀ batch ∈ (onDrop files current response).batches, f ∉ batch) := by
  by_cases hvalid : files.filter (fun f => f.size ≤ maxUploadSize) = []
  · refine ⟨?_, fun _ => ⟨?_, ?_⟩, fun h => absurd hvalid h,
      fun _ hne _ => absurd hvalid hne, ?_⟩
    all_goals simp [onDrop, hvalid]
  · have hbatches : (onDrop files current response).batches
        = [files.filter (fun f => f.size ≤ maxUploadSize)] := by
      rcases response with _ | ⟨code, data⟩
      · simp [onDrop, hvalid]
      · by_cases hc : code = 200 <;> simp [onDrop, hvalid, hc]
    refine ⟨?_, fun h => absurd h hvalid, fun _ => hbatches, ?_, ?_⟩
    · intro batch hb f
      rw [hbatches, List.mem_singleton] at hb
      subst hb
      simp [List.mem_filter]
    · intro newAttachments _ hresp
      subst hresp
      simp [onDrop, hvalid]
    · intro f _ hsize batch hb hf
      rw [hbatches, List.mem_singleton] at hb
      subst hb
      have := (List.mem_filter.mp hf).2
      simp only [decide_eq_true_eq] at this
      omega

theorem onDrop_filters_and_appends_witness :
    (onDrop [⟨"small.pdf", 1024⟩, ⟨"big.bin", 60 * 1024 * 1024⟩] []
        (some (200, [⟨"small.pdf", "application/pdf", 1024, "2024-01-01",
          "http://u", "k1"⟩]))).batches = [[⟨"small.pdf", 1024⟩]] ∧
    (onDrop [⟨"small.pdf", 1024⟩, ⟨"big.bin", 60 * 1024 * 1024⟩] []
        (some (200, [⟨"small.pdf", "application/pdf", 1024, "2024-01-01",
          "http://u", "k1"⟩]))).attachments
      = [⟨"small.pdf", "application/pdf", 1024, "2024-01-01", "http://u", "k1"⟩] ∧
    (onDrop [⟨"big.bin", 60 * 1024 * 1024⟩] [] none).batches = [] := by
  have h1 := onDrop_filters_and_appends
    [⟨"small.pdf", 1024⟩, ⟨"big.bin", 60 * 1024 * 1024⟩] []
    (some (200, [⟨"small.pdf", "application/pdf", 1024, "2024-01-01",
      "http://u", "k1"⟩]))
  have h2 := onDrop_filters_and_appends [⟨"big.bin", 60 * 1024 * 1024⟩] [] none
  refine ⟨?_, ?_, (h2.2.1 (by decide)).1⟩
  · have := h1.2.2.1 (by decide)
    rw [this]
    decide
  · have := h1.2.2.2.1 _ (by decide) rfl
    rw [this]
    decide

/-- C5: in both the editor (`handleRemoveAttachment`) and the detail view
(`handleSingleDelete`), declining the confirmation issues no request and
leaves the attachment list unchanged; confirming issues the backend file
delete by storage key first (it is the first request), the attachment is
removed from the local list only when that call succeeds, and a failed
delete leaves the list unchanged. -/
theorem attachment_delete_confirmation_spec (atts : List Attachment)
    (index : Nat) (hidx : index < atts.length) (caseId : String)
    (attachment : Attachment) (succ : Bool) :
    handleRemoveAttachment atts index false succ = ([], atts) ∧
    handleRemoveAttachment atts index true false
      = ([.deleteFile (atts.get ⟨index, hidx⟩).ossKey], atts) ∧
    handleRemoveAttachment atts index true true
      = ([.deleteFile (atts.get ⟨index, hidx⟩).ossKey], atts.eraseIdx index) ∧
    handleSingleDelete caseId atts attachment false succ = ([], atts) ∧
    handleSingleDelete caseId atts attachment true false
      = ([.deleteFile attachment.ossKey], atts) ∧
    (handleSingleDelete caseId atts attachment true true).1.head?
      = some (.deleteFile attachment.ossKey) ∧
    (handleSingleDelete caseId atts attachment true true).2
      = atts.filter (fun a => a.ossKey ≠ attachment.ossKey) := by
  refine ⟨?_, ?_, ?_, ?_, ?_, ?_, ?_⟩ <;>
    simp [handleRemoveAttachment, handleSingleDelete,
      List.getElem?_eq_getElem hidx]

theorem attachment_delete_confirmation_spec_witness :
    handleRemoveAttachment
        [⟨"f.pdf", "application/pdf", 9, "2024-01-01", "http://u", "key1"⟩]
        0 false true
      = ([], [⟨"f.pdf", "application/pdf", 9, "2024-01-01", "http://u", "key1"⟩]) ∧
    handleRemoveAttachment
        [⟨"f.pdf", "application/pdf", 9, "2024-01-01", "http://u", "key1"⟩]
        0 true true = ([.deleteFile "key1"], []) ∧
    handleSingleDelete "case7"
        [⟨"f.pdf", "application/pdf", 9, "2024-01-01", "http://u", "key1"⟩]
        ⟨"f.pdf", "application/pdf", 9, "2024-01-01", "http://u", "key1"⟩
        true false
      = ([.deleteFile "key1"],
         [⟨"f.pdf", "application/pdf", 9, "2024-01-01", "http://u", "key1"⟩]) := by
  have h := attachment_delete_confirmation_spec
    [⟨"f.pdf", "application/pdf", 9, "2024-01-01", "http://u", "key1"⟩]
    0 (by decide) "case7"
    ⟨"f.pdf", "application/pdf", 9, "2024-01-01", "http://u", "key1"⟩ true
  exact ⟨h.1, h.2.2.1, h.2.2.2.2.1⟩

/-- C6: the combined filter/sort affordance resets keyword, selected tag
and page (to 1) when any filter is active, leaving the sort direction
alone; with no active filter it only toggles the sort direction between
descending and ascending, leaving keyword, tag and page alone. -/
theorem handleFilterOrSort_reset_or_toggle (s : ListFilterState) :
    (s.keyword ≠ "" ∨ s.selectedTag ≠ "" →
      handleFilterOrSort s
        = { keyword := "", selectedTag := "", page := 1,
            sortDir := s.sortDir }) ∧
    (s.keyword = "" → s.selectedTag = "" →
      handleFilterOrSort s
        = { keyword := s.keyword, selectedTag := s.selectedTag,
            page := s.page,
            sortDir := if s.sortDir = .desc then .asc else .desc }) := by
  constructor
  · intro h
    simp [handleFilterOrSort, h]
  · intro h1 h2
    simp [handleFilterOrSort, h1, h2]

theorem handleFilterOrSort_reset_or_toggle_witness :
    handleFilterOrSort ⟨"窃电", "", 4, .desc⟩ = ⟨"", "", 1, .desc⟩ ∧
    handleFilterOrSort ⟨"", "", 4, .desc⟩ = ⟨"", "", 4, .asc⟩ := by
  have h1 := (handleFilterOrSort_reset_or_toggle ⟨"窃电", "", 4, .desc⟩).1
    (.inl (by decide))
  have h2 := (handleFilterOrSort_reset_or_toggle ⟨"", "", 4, .desc⟩).2 rfl rfl
  exact ⟨h1, h2⟩

/-- C7: during session initialization with a stored token, if the whoami
call fails (throws, or resolves with a code other than 200) then `initAuth`
itself performs no storage write and keeps the optimistically restored
cached user in memory, only ending the loading state; the session storage
is cleared on that path only by the 401 interceptor. -/
theorem initAuth_failure_tolerated (st : SessionStorage) (t : String)
    (ht : st.token = some t) (whoami : WhoamiOutcome)
    (hfail : ∀ u, whoami ≠ .ok 200 u) :
    (initAuth st whoami).writes = [] ∧
    (initAuth st whoami).user = st.user ∧
    (initAuth st whoami).isLoading = false ∧
    (∀ stg onLoginRoute msg,
      (onResponseError stg onLoginRoute ⟨some (401, msg), true⟩).storage
        = { token := none, user := none }) := by
  refine ⟨?_, ?_, ?_, fun stg onLoginRoute msg => ?_⟩
  · cases whoami with
    | failed => simp [initAuth, ht]
    | ok code u =>
      have hc : code ≠ 200 := fun h => hfail u (by rw [h])
      simp [initAuth, ht, hc]
  · cases whoami with
    | failed => simp [initAuth, ht]
    | ok code u =>
      have hc : code ≠ 200 := fun h => hfail u (by rw [h])
      simp [initAuth, ht, hc]
  · cases whoami with
    | failed => simp [initAuth, ht]
    | ok code u =>
      have hc : code ≠ 200 := fun h => hfail u (by rw [h])
      simp [initAuth, ht, hc]
  · cases onLoginRoute <;> simp [onResponseError]

theorem initAuth_failure_tolerated_witness :
    (initAuth ⟨some "tok", some ⟨"u1", "Ann", "13800000000", true⟩⟩
        .failed).writes = [] ∧
    (initAuth ⟨some "tok", some ⟨"u1", "Ann", "13800000000", true⟩⟩
        .failed).user = some ⟨"u1", "Ann", "13800000000", true⟩ ∧
    (initAuth ⟨some "tok", some ⟨"u1", "Ann", "13800000000", true⟩⟩
        .failed).isLoading = false := by
  have h := initAuth_failure_tolerated
    ⟨some "tok", some ⟨"u1", "Ann", "13800000000", true⟩⟩ "tok" rfl .failed
    (fun u h => by cases h)
  exact ⟨h.1, h.2.1, h.2.2.1⟩

/-- The reduce step of the top-tag fold keeps the bigger count. -/
theorem topTag_foldl_mem (rest : List TagStat) (t : TagStat) :
    rest.foldl (fun prev current =>
        if prev.count > current.count then prev else current) t = t ∨
    rest.foldl (fun prev current =>
        if prev.count > current.count then prev else current) t ∈ rest := by
  induction rest generalizing t with
  | nil => exact .inl rfl
  | cons c rest ih =>
    simp only [List.foldl_cons]
    rcases ih (if t.count > c.count then t else c) with h | h
    · rw [h]
      split
      · exact .inl rfl
      · exact .inr (List.mem_cons_self c rest)
    · exact .inr (List.mem_cons_of_mem c h)

/-- The top-tag fold result dominates its seed and every folded element. -/
theorem topTag_foldl_ge (rest : List TagStat) (t : TagStat) :
    t.count ≤ (rest.foldl (fun prev current =>
        if prev.count > current.count then prev else current) t).count ∧
    ∀ x ∈ rest, x.count ≤ (rest.foldl (fun prev current =>
        if prev.count > current.count then prev else current) t).count := by
  induction rest generalizing t with
  | nil => exact ⟨le_refl _, by simp⟩
  | cons c rest ih =>
    simp only [List.foldl_cons]
    obtain ⟨h1, h2⟩ := ih (if t.count > c.count then t else c)
    have hseed : t.count ≤ (if t.count > c.count then t else c).count ∧
        c.count ≤ (if t.count > c.count then t else c).count := by
      split <;> omega
    refine ⟨le_trans hseed.1 h1, ?_⟩
    intro x hx
    rcases List.mem_cons.mp hx with rfl | hx
    · exact le_trans hseed.2 h1
    · exact h2 x hx

/-- C8: for a non-empty tag-stat list the derived top tag is an element of
the list whose count is the maximum count over the list; for the empty list
the placeholder `{tag: 暂无, count: 0}` is used. -/
theorem topTag_is_max (tags : List TagStat) :
    topTag [] = { tag := "暂无", count := 0 } ∧
    (tags ≠ [] →
      topTag tags ∈ tags ∧ ∀ x ∈ tags, x.count ≤ (topTag tags).count) := by
  refine ⟨rfl, fun hne => ?_⟩
  match tags with
  | [] => exact absurd rfl hne
  | t :: rest =>
    constructor
    · rcases topTag_foldl_mem rest t with h | h
      · rw [show topTag (t :: rest) = rest.foldl (fun prev current =>
            if prev.count > current.count then prev else current) t from rfl, h]
        exact List.mem_cons_self t rest
      · exact List.mem_cons_of_mem t h
    · intro x hx
      obtain ⟨h1, h2⟩ := topTag_foldl_ge rest t
      rcases List.mem_cons.mp hx with rfl | hx
      · exact h1
      · exact h2 x hx

theorem topTag_is_max_witness :
    topTag [⟨"窃电", 12⟩, ⟨"合同纠纷", 3⟩] = ⟨"窃电", 12⟩ ∧
    topTag [⟨"窃电", 12⟩, ⟨"合同纠纷", 3⟩] ∈
      ([⟨"窃电", 12⟩, ⟨"合同纠纷", 3⟩] : List TagStat) ∧
    (∀ x ∈ ([⟨"窃电", 12⟩, ⟨"合同纠纷", 3⟩] : List TagStat),
      x.count ≤ (topTag [⟨"窃电", 12⟩, ⟨"合同纠纷", 3⟩]).count) ∧
    topTag [] = ⟨"暂无", 0⟩ := by
  have h := topTag_is_max [⟨"窃电", 12⟩, ⟨"合同纠纷", 3⟩]
  have h2 := h.2 (by simp)
  exact ⟨by decide, h2.1, h2.2, h.1⟩

/-- C9: with more than three attachments and the list collapsed the detail
view shows exactly the first three attachments in order and offers the
expand control; expanded, it shows all of them; with three or fewer it
always shows all of them and no expand/collapse control exists. -/
theorem displayedAttachments_truncation (atts : List Attachment)
    (expanded : Bool) :
    (3 < atts.length →
      displayedAttachments atts false = atts.take 3 ∧
      (displayedAttachments atts false).length = 3 ∧
      showCollapse atts = true ∧
      displayedAttachments atts true = atts) ∧
    (atts.length ≤ 3 →
      displayedAttachments atts expanded = atts ∧
      showCollapse atts = false) := by
  constructor
  · intro h
    have hc : showCollapse atts = true := by
      simp [showCollapse, hasAttachments]
      omega
    refine ⟨?_, ?_, hc, ?_⟩
    · simp [displayedAttachments, hc]
    · simp [displayedAttachments, hc, List.length_take]
      omega
    · simp [displayedAttachments]
  · intro h
    have hc : showCollapse atts = false := by
      simp [showCollapse, hasAttachments]
      omega
    exact ⟨by simp [displayedAttachments, hc], hc⟩

theorem displayedAttachments_truncation_witness :
    displayedAttachments
        [⟨"a", "t", 1, "d", "u", "k1"⟩, ⟨"b", "t", 1, "d", "u", "k2"⟩,
         ⟨"c", "t", 1, "d", "u", "k3"⟩, ⟨"d", "t", 1, "d", "u", "k4"⟩] false
      = [⟨"a", "t", 1, "d", "u", "k1"⟩, ⟨"b", "t", 1, "d", "u", "k2"⟩,
         ⟨"c", "t", 1, "d", "u", "k3"⟩] ∧
    showCollapse
        [⟨"a", "t", 1, "d", "u", "k1"⟩, ⟨"b", "t", 1, "d", "u", "k2"⟩,
         ⟨"c", "t", 1, "d", "u", "k3"⟩, ⟨"d", "t", 1, "d", "u", "k4"⟩]
      = true ∧
    displayedAttachments
        [⟨"a", "t", 1, "d", "u", "k1"⟩, ⟨"b", "t", 1, "d", "u", "k2"⟩] true
      = [⟨"a", "t", 1, "d", "u", "k1"⟩, ⟨"b", "t", 1, "d", "u", "k2"⟩] ∧
    showCollapse
        [⟨"a", "t", 1, "d", "u", "k1"⟩, ⟨"b", "t", 1, "d", "u", "k2"⟩]
      = false := by
  have h1 := (displayedAttachments_truncation
    [⟨"a", "t", 1, "d", "u", "k1"⟩, ⟨"b", "t", 1, "d", "u", "k2"⟩,
     ⟨"c", "t", 1, "d", "u", "k3"⟩, ⟨"d", "t", 1, "d", "u", "k4"⟩] false).1
    (by decide)
  have h2 := (displayedAttachments_truncation
    [⟨"a", "t", 1, "d", "u", "k1"⟩, ⟨"b", "t", 1, "d", "u", "k2"⟩] true).2
    (by decide)
  exact ⟨by rw [h1.1]; decide, h1.2.2.1, h2.1, h2.2⟩

/-- C10: `handlePageChange` accepts a requested page exactly when it lies
in `[1, totalPages]`, and therefore, starting from page 1 with
`totalPages ≥ 1`, the current page stays within `[1, totalPages]` under any
sequence of page-change requests. -/
theorem page_stays_in_range (totalPages : Nat) (h : 1 ≤ totalPages)
    (requests : List Nat) (page newPage : Nat) :
    (1 ≤ newPage ∧ newPage ≤ totalPages →
      handlePageChange totalPages page newPage = newPage) ∧
    (¬ (1 ≤ newPage ∧ newPage ≤ totalPages) →
      handlePageChange totalPages page newPage = page) ∧
    1 ≤ pageAfter totalPages requests ∧
    pageAfter totalPages requests ≤ totalPages := by
  have hstep : ∀ (reqs : List Nat) (p : Nat), 1 ≤ p → p ≤ totalPages →
      1 ≤ reqs.foldl (handlePageChange totalPages) p ∧
      reqs.foldl (handlePageChange totalPages) p ≤ totalPages := by
    intro reqs
    induction reqs with
    | nil => exact fun p h1 h2 => ⟨h1, h2⟩
    | cons r rs ih =>
      intro p h1 h2
      simp only [List.foldl_cons]
      apply ih
      · unfold handlePageChange
        split <;> omega
      · unfold handlePageChange
        split <;> omega
  refine ⟨fun hin => ?_, fun hout => ?_, hstep requests 1 (le_refl 1) h⟩
  · simp [handlePageChange, hin]
  · simp [handlePageChange, hout]

theorem page_stays_in_range_witness :
    handlePageChange 5 2 3 = 3 ∧
    handlePageChange 5 2 0 = 2 ∧
    1 ≤ pageAfter 5 [2, 3, 9, 0, 4] ∧
    pageAfter 5 [2, 3, 9, 0, 4] ≤ 5 := by
  have h := page_stays_in_range 5 (by decide) [2, 3, 9, 0, 4] 2 3
  have h0 := page_stays_in_range 5 (by decide) [2, 3, 9, 0, 4] 2 0
  exact ⟨h.1 (by decide), h0.2.1 (by decide), h.2.2.1, h.2.2.2⟩

end CSGLRP
